import Mathlib

/-!
Verification of the contract-extraction pipeline (section routing, merge &
normalization, record store, batch processing) and of the `/api/process`
HTTP handler.

Definitions are shallow embeddings of the repository's code: the field
taxonomy and `SECTION_FIELD_MAPPING` are transcribed from the pipeline
document, `find_relevant_sections` embeds the Python routing function, and
`handler` embeds `src/pages/api/process.ts`.  Components whose
implementation is not present in the repository (merge/normalizer, record
store, batch processor, full-text fallback) are modelled from the spec, as
marked in their doc comments.
-/

namespace Pipeline

/-- A document section, as produced by the HTML parser:
`{"number": "1.1", "title": "Term of the Agreement", "text": "..."}`. -/
structure Sec where
  number : String
  title : String
  text : String
deriving DecidableEq

/-- ASCII lower-casing of one character (embeds Python `str.lower` on the
ASCII titles the pipeline handles). -/
def lowerChar (c : Char) : Char :=
  if 65 ≤ c.toNat ∧ c.toNat ≤ 90 then Char.ofNat (c.toNat + 32) else c

/-- Lower-cased character list of a string. -/
def lowerStr (s : String) : List Char :=
  s.toList.map lowerChar

/-- Split a regex pattern on `|` into its alternatives (the patterns in
`SECTION_FIELD_MAPPING` are flat alternations of literals and `.`). -/
def splitAlts : List Char → List Char → List (List Char)
  | [], acc => [acc.reverse]
  | '|' :: rest, acc => acc.reverse :: splitAlts rest []
  | c :: rest, acc => splitAlts rest (c :: acc)

/-- One pattern character against one text character: `.` matches any
character, anything else matches literally. -/
def charMatch (p c : Char) : Bool :=
  p = '.' ∨ p = c

/-- Does the alternative match a prefix of the text? -/
def altMatchPrefix : List Char → List Char → Bool
  | [], _ => true
  | _ :: _, [] => false
  | p :: ps, c :: cs => charMatch p c && altMatchPrefix ps cs

/-- Does the alternative match anywhere in the text (Python `re.search`)? -/
def altSearch (p : List Char) : List Char → Bool
  | [] => p.isEmpty
  | c :: cs => altMatchPrefix p (c :: cs) || altSearch p cs

/-- Embeds `re.search(kw, title, re.IGNORECASE)` for the alternation
patterns used by the mapping: some alternative of `kw` occurs in the
lower-cased title (`title` is lower-cased in the source before the search,
and `re.IGNORECASE` makes the lower-casing of both sides faithful). -/
def reSearch (kw title : String) : Bool :=
  (splitAlts (lowerStr kw) []).any (fun alt => altSearch alt (lowerStr title))

/-- The canonical 68-column TSV schema, transcribed from the
"TSV Schema (68 columns)" block of the pipeline document. -/
def TSV_SCHEMA : List String :=
  ["idx", "form", "exhibit", "date", "buyer", "buyer_location", "seller",
   "seller_location", "issuer", "issuer_location", "url", "agreement_type",
   "license_transferable", "sublicensing", "exclusive",
   "title_and_interest_sold", "ip_sold", "deliverables", "fee_model",
   "fee_type", "fee_amount", "fee_mode", "fee_percent", "charged_per",
   "payment_freq", "tranche_trigger", "delivery_trigger", "auto_renews",
   "term", "can_terminate", "termination_notice", "breach_terminable",
   "breach_notice", "breach_prorated", "coc_terminable", "coc_notice",
   "derivative_work_owned_by", "prices_adjustable", "price_change_notice",
   "price_change_requires", "no_price_changes", "payment_timing",
   "who_pays_sales_tax", "who_pays_expenses", "expenses_include",
   "payment_method", "are_upgrades_provided", "reps_and_warranties_mutual",
   "reps_and_warranties_seller", "reps_and_warranties_buyer",
   "warranty_period", "indemnification", "indemnity_notify",
   "indemnity_discovery_trigger", "liable_for_indirect_damages",
   "max_liability", "liability_time_limit", "has_sla", "sla_tiers",
   "sla_has_service_credits", "sla_credit_cap_pct", "sla_critical_response",
   "sla_critical_fulltime", "sla_medium_fix", "sla_low_fix_required",
   "sla_goals_strict", "law_in_state_of", "arbitration_in_state_of"]

/-- `SECTION_FIELD_MAPPING` transcribed from the pipeline document: each
entry is a section-keyword pattern paired with the fields extracted from
the matching sections.  Declaration order is the order in the source. -/
def SECTION_FIELD_MAPPING : List (String × List String) :=
  [("preamble|recitals",
    ["date", "buyer", "buyer_location", "seller", "seller_location",
     "issuer", "issuer_location", "agreement_type"]),
   ("payment|fee|price|consideration|purchase",
    ["fee_model", "fee_type", "fee_amount", "fee_mode", "fee_percent",
     "charged_per", "payment_freq", "tranche_trigger", "delivery_trigger",
     "payment_timing", "payment_method"]),
   ("license|rights|intellectual|property|ip",
    ["license_transferable", "sublicensing", "exclusive",
     "title_and_interest_sold", "ip_sold", "deliverables",
     "derivative_work_owned_by"]),
   ("term|renewal|termination",
    ["auto_renews", "term", "can_terminate", "termination_notice",
     "breach_terminable", "breach_notice", "breach_prorated",
     "coc_terminable", "coc_notice"]),
   ("price|adjustment|change",
    ["prices_adjustable", "price_change_notice", "price_change_requires",
     "no_price_changes"]),
   ("expense|tax|cost",
    ["who_pays_sales_tax", "who_pays_expenses", "expenses_include"]),
   ("warrant|representation",
    ["reps_and_warranties_mutual", "reps_and_warranties_seller",
     "reps_and_warranties_buyer", "warranty_period"]),
   ("indemnif|liability|damage",
    ["indemnification", "indemnity_notify", "indemnity_discovery_trigger",
     "liable_for_indirect_damages", "max_liability",
     "liability_time_limit"]),
   ("sla|service.level|support|maintenance",
    ["has_sla", "sla_tiers", "sla_has_service_credits",
     "sla_credit_cap_pct", "sla_critical_response", "sla_critical_fulltime",
     "sla_medium_fix", "sla_low_fix_required", "sla_goals_strict",
     "are_upgrades_provided"]),
   ("govern|law|jurisdiction|venue|arbitration",
    ["law_in_state_of", "arbitration_in_state_of"]),
   ("exhibit",
    ["fee_amount"])]

/-- All fields claimed by some group, in declaration order (with
multiplicity). -/
def allGroupFields : List String :=
  (SECTION_FIELD_MAPPING.map Prod.snd).flatten

/-- The four bookkeeping/metadata columns of the schema that no field
group extracts. -/
def BOOKKEEPING_FIELDS : List String :=
  ["idx", "form", "exhibit", "url"]

/-- Does the section title match any of the group's keyword patterns?
(The inner `for kw in keywords ... break` loop of the source.) -/
def sectionMatches (keywords : List String) (title : String) : Bool :=
  keywords.any (fun kw => reSearch kw title)

/-- Embeds `find_relevant_sections(contract_json, keywords)` from the
pipeline document: scan sections in document order, keep a section once
as soon as one keyword pattern matches its title. -/
def find_relevant_sections (sections : List Sec) (keywords : List String) :
    List Sec :=
  match sections with
  | [] => []
  | s :: rest =>
    if sectionMatches keywords s.title then
      s :: find_relevant_sections rest keywords
    else
      find_relevant_sections rest keywords

/-- Modelled from the spec: the fallback wrapper of implementation step 3
("If section matching fails, fall back to full text") is not present as
code in the repository; per the spec, a group with zero matching sections
receives the entire section list. -/
def route (sections : List Sec) (keywords : List String) : List Sec :=
  let matched := find_relevant_sections sections keywords
  if matched.isEmpty then sections else matched

/-- One field group's raw result from the text service: field name to
unvalidated string value. -/
abbrev RawAnswer : Type := List (String × String)

/-- Value of a field in an answer/record; absent fields read as the empty
string (the spec's explicit-empty contract for unknown fields). -/
def lookupAnswer (a : List (String × String)) (f : String) : String :=
  ((a.find? (fun p => decide (p.1 = f))).map Prod.snd).getD ""

/-- Modelled from the spec: the merge initializes a record with all
canonical fields set to the empty string (the merge/normalizer code is not
in the repository). -/
def emptyRecord : List (String × String) :=
  TSV_SCHEMA.map (fun f => (f, ""))

/-- Modelled from the spec: overlaying one group's `RawAnswer` onto the
record — a value is written only into a field that is still empty, so a
later non-empty value never overwrites an earlier non-empty value. -/
def overlayAnswer (rec : List (String × String)) (a : RawAnswer) :
    List (String × String) :=
  rec.map (fun p => if p.2 = "" then (p.1, lookupAnswer a p.1) else p)

/-- Modelled from the spec: merge of the per-group raw answers, overlaying
them in FieldGroup declaration order over the all-empty record. -/
def mergeRaw (answers : List RawAnswer) : List (String × String) :=
  answers.foldl overlayAnswer emptyRecord

/-- The spec's description of the merged value of a field: the first
non-empty value in group-declaration order. -/
def firstNonEmptyAnswer : List RawAnswer → String → String
  | [], _ => ""
  | a :: rest, f =>
    if lookupAnswer a f = "" then firstNonEmptyAnswer rest f
    else lookupAnswer a f

/-- Modelled from the spec: the boolean-typed columns of the schema
(`yes`/`no`/empty vocabulary); the field-type table is not in the
repository. -/
def BOOLEAN_FIELDS : List String :=
  ["license_transferable", "sublicensing", "exclusive", "auto_renews",
   "can_terminate", "breach_terminable", "breach_prorated",
   "coc_terminable", "prices_adjustable", "no_price_changes",
   "are_upgrades_provided", "reps_and_warranties_mutual",
   "indemnification", "liable_for_indirect_damages", "has_sla",
   "sla_has_service_credits", "sla_critical_fulltime",
   "sla_low_fix_required", "sla_goals_strict"]

/-- Modelled from the spec: the duration-typed columns of the schema
(`\d+(d|mo|y)` vocabulary). -/
def DURATION_FIELDS : List String :=
  ["term", "termination_notice", "breach_notice", "coc_notice",
   "price_change_notice", "warranty_period", "liability_time_limit",
   "sla_critical_response", "sla_medium_fix"]

/-- Modelled from the spec: the party-name columns (lower-case, no legal
suffixes). -/
def PARTY_FIELDS : List String :=
  ["buyer", "seller", "issuer"]

/-- Modelled from the spec: affirmative synonyms mapped to `yes`. -/
def AFFIRMATIVE_SYNONYMS : List String :=
  ["yes", "y", "true", "t", "affirmative"]

/-- Modelled from the spec: negative synonyms mapped to `no`.  `n/a` is
deliberately not a negative synonym. -/
def NEGATIVE_SYNONYMS : List String :=
  ["no", "n", "false", "f", "negative", "none"]

/-- Modelled from the spec: boolean normalization — any affirmative
synonym to `yes`, any negative synonym to `no`, anything else to the
empty string. -/
def normalizeBool (v : String) : String :=
  let w := String.mk (lowerStr v)
  if w ∈ AFFIRMATIVE_SYNONYMS then "yes"
  else if w ∈ NEGATIVE_SYNONYMS then "no"
  else ""

/-- After the leading digit, a duration is more digits followed by one of
the unit suffixes `d`, `mo`, `y`. -/
def durUnitTail : List Char → Bool
  | ['d'] => true
  | ['y'] => true
  | ['m', 'o'] => true
  | c :: rest => c.isDigit && durUnitTail rest
  | [] => false

/-- Does the string match `\d+(d|mo|y)` exactly? -/
def isDurationStr (s : String) : Bool :=
  match s.toList with
  | [] => false
  | c :: rest => c.isDigit && durUnitTail rest

/-- Modelled from the spec: duration normalization — a value already in
canonical `\d+(d|mo|y)` form passes through, anything unparseable
degrades to the empty string rather than raising. -/
def normalizeDuration (v : String) : String :=
  if isDurationStr v then v else ""

/-- Legal-entity suffixes stripped from party names. -/
def LEGAL_SUFFIXES : List String :=
  ["corp", "inc", "ltd", "llc", "co"]

/-- Split a character list into space-separated words. -/
def splitWords : List Char → List Char → List (List Char)
  | [], acc => if acc.isEmpty then [] else [acc.reverse]
  | ' ' :: rest, acc =>
    if acc.isEmpty then splitWords rest [] else acc.reverse :: splitWords rest []
  | c :: rest, acc => splitWords rest (c :: acc)

/-- Drop trailing `.`/`,` punctuation from a word. -/
def stripPunct (w : List Char) : List Char :=
  (w.reverse.dropWhile (fun c => c = '.' || c = ',')).reverse

/-- Modelled from the spec: party-name normalization — lower-case the name
and strip a trailing legal-entity suffix (with optional trailing
punctuation). -/
def normalizeParty (v : String) : String :=
  let ws := splitWords (lowerStr v) []
  let kept :=
    match ws.getLast? with
    | some w => if String.mk (stripPunct w) ∈ LEGAL_SUFFIXES then ws.dropLast else ws
    | none => ws
  String.mk (List.intercalate [' '] kept)

/-- Modelled from the spec: per-field normalization dispatch. -/
def normalizeField (f v : String) : String :=
  if f ∈ BOOLEAN_FIELDS then normalizeBool v
  else if f ∈ DURATION_FIELDS then normalizeDuration v
  else if f ∈ PARTY_FIELDS then normalizeParty v
  else v

/-- Modelled from the spec: full merge — overlay the group answers in
declaration order, normalize each field, and populate `idx` from the
store counter, `url` from the caller, and `form` from the SEC filing
metadata (the source's "form field" note). -/
def merge (answers : List RawAnswer) (form url : String) (idx : Nat) :
    List (String × String) :=
  (mergeRaw answers).map (fun p =>
    (p.1,
      if p.1 = "idx" then toString idx
      else if p.1 = "url" then url
      else if p.1 = "form" then form
      else normalizeField p.1 p.2))

/-- The merged value of one field, as a function of the inputs. -/
def mergedValue (answers : List RawAnswer) (form url : String) (idx : Nat)
    (f : String) : String :=
  if f = "idx" then toString idx
  else if f = "url" then url
  else if f = "form" then form
  else normalizeField f (firstNonEmptyAnswer answers f)

/-- Modelled from the spec: the Record Store's state — the idx values of
the appended rows in append order, and the ledger's record of the highest
idx assigned so far (`none` before the first append).  The store code is
not in the repository. -/
structure StoreState where
  rows : List Nat
  ledgerLast : Option Nat
deriving DecidableEq

/-- The idx the next append assigns: one greater than the highest idx the
ledger has recorded, starting at 0. -/
def nextIdx (s : StoreState) : Nat :=
  match s.ledgerLast with
  | none => 0
  | some m => m + 1

/-- Modelled from the spec: `append(record)` — write exactly one row with
the ledger-assigned idx and record the new highest idx in the ledger. -/
def appendRecord (s : StoreState) : StoreState :=
  { rows := s.rows ++ [nextIdx s], ledgerLast := some (nextIdx s) }

/-- A fresh store: no rows, no idx ever assigned. -/
def initialStore : StoreState :=
  { rows := [], ledgerLast := none }

/-- Modelled from the spec: a process restart after which the store file
may have lost trailing rows, while the durable ledger survives intact. -/
def restartStore (s : StoreState) (k : Nat) : StoreState :=
  { rows := s.rows.take k, ledgerLast := s.ledgerLast }

/-- `n` successive appends. -/
def appendN (s : StoreState) : Nat → StoreState
  | 0 => s
  | n + 1 => appendRecord (appendN s n)

/-- Store health invariant: rows are strictly increasing and every stored
idx is below the next idx the ledger will hand out. -/
def StoreInv (s : StoreState) : Prop :=
  s.rows.Pairwise (· < ·) ∧ ∀ i ∈ s.rows, i < nextIdx s

/-- Ledger outcome of one document URL. -/
inductive LStatus where
  | succeeded
  | failed
deriving DecidableEq

/-- Modelled from the spec: the Batch Processor's state — the durable
per-URL ledger and the record store's appended rows (one URL per row).
Phase 4 is a TODO in the repository, so the whole component is modelled
from the spec. -/
structure BatchState where
  ledger : List (String × LStatus)
  store : List String
deriving DecidableEq

/-- The ledger's recorded outcome for a URL, if any. -/
def findStatus : List (String × LStatus) → String → Option LStatus
  | [], _ => none
  | p :: t, u => if p.1 = u then some p.2 else findStatus t u

/-- Atomically update the ledger entry of one URL (replace its entry, or
append one), leaving all other URLs' entries untouched. -/
def setLedger : List (String × LStatus) → String → LStatus →
    List (String × LStatus)
  | [], u, x => [(u, x)]
  | p :: t, u, x => if p.1 = u then (u, x) :: t else p :: setLedger t u x

/-- Modelled from the spec: process one document — a URL already recorded
as succeeded is skipped unconditionally; otherwise the document is
processed (`ok u` is its deterministic outcome), a row is appended only on
success, and the ledger is persisted immediately. -/
def processOne (ok : String → Bool) (st : BatchState) (u : String) :
    BatchState :=
  if findStatus st.ledger u = some LStatus.succeeded then st
  else if ok u then
    { ledger := setLedger st.ledger u LStatus.succeeded,
      store := st.store ++ [u] }
  else
    { ledger := setLedger st.ledger u LStatus.failed, store := st.store }

/-- Modelled from the spec: `runBatch` drives the chain over the document
set, consulting and updating the ledger per document. -/
def runBatch (ok : String → Bool) (st : BatchState) (docs : List String) :
    BatchState :=
  docs.foldl (processOne ok) st

/-- An incoming HTTP request as the handler sees it: method, optional
content-type header, raw body. -/
structure ApiRequest where
  method : String
  contentType : Option String
  body : String

/-- The backend's response to a forwarded request, as consumed by
`process.ts`: `ok`/status from `fetch`, optional content-type and
content-disposition headers, body bytes, and the JSON `detail` of an
error payload. -/
structure BackendResponse where
  ok : Bool
  status : Nat
  contentType : Option String
  contentDisposition : Option String
  body : String
  errorDetail : String

/-- What the handler produced: status code, content-type, body, and
whether it read the request body (`streamToBuffer`) or issued the
backend `fetch`. -/
structure ApiResult where
  status : Nat
  contentType : String
  body : String
  backendCalled : Bool
  bodyRead : Bool
deriving DecidableEq

/-- `JSON.stringify(\x7b detail: 'Method not allowed' \x7d)` as emitted by
the non-POST branch of the handler. -/
def methodNotAllowedBody : String :=
  "\x7b\"detail\":\"Method not allowed\"\x7d"

/-- Embeds the default export `handler` of `src/pages/api/process.ts`:
a non-POST request is answered 405 with a JSON detail body before the
body is read or the backend is contacted; a POST request is streamed to
the backend, non-ok backend statuses are propagated with a JSON detail
body, and an ok response is piped back with status 200 and the backend's
content type. -/
def handler (req : ApiRequest) (backend : String → String → BackendResponse) :
    ApiResult :=
  if req.method ≠ "POST" then
    ApiResult.mk 405 "application/json" methodNotAllowedBody false false
  else
    let contentType := req.contentType.getD "multipart/form-data"
    let resp := backend contentType req.body
    if !resp.ok then
      ApiResult.mk resp.status "application/json"
        ("\x7b\"detail\":\"" ++ resp.errorDetail ++ "\"\x7d") true true
    else
      ApiResult.mk 200 (resp.contentType.getD "text/csv") resp.body true true

/-- `find_relevant_sections` is the filter of the section list by the
keyword predicate. -/
theorem find_relevant_sections_eq_filter (sections : List Sec)
    (keywords : List String) :
    find_relevant_sections sections keywords =
      sections.filter (fun s => sectionMatches keywords s.title) := by
  induction sections with
  | nil => rfl
  | cons s rest ih =>
    by_cases h : sectionMatches keywords s.title
    · simp [find_relevant_sections, List.filter, h, ih]
    · simp [find_relevant_sections, List.filter, h, ih]

/-- Overlay acts pointwise on a record of the shape `f ↦ v f`. -/
theorem overlayAnswer_map (l : List String) (v : String → String)
    (a : RawAnswer) :
    overlayAnswer (l.map (fun f => (f, v f))) a =
      l.map (fun f => (f, if v f = "" then lookupAnswer a f else v f)) := by
  unfold overlayAnswer
  rw [List.map_map]
  apply List.map_congr_left
  intro f _
  by_cases h : v f = "" <;> simp [h]

/-- Folding the overlay over all answers computes, per field, the first
non-empty answer (relative to the initial values). -/
theorem foldl_overlayAnswer (answers : List RawAnswer) :
    ∀ (l : List String) (v : String → String),
      answers.foldl overlayAnswer (l.map (fun f => (f, v f))) =
        l.map (fun f =>
          (f, if v f = "" then firstNonEmptyAnswer answers f else v f)) := by
  induction answers with
  | nil =>
    intro l v
    rw [List.foldl_nil]
    apply List.map_congr_left
    intro f _
    by_cases h : v f = "" <;> simp [h, firstNonEmptyAnswer]
  | cons a rest ih =>
    intro l v
    rw [List.foldl_cons, overlayAnswer_map,
      ih l (fun f => if v f = "" then lookupAnswer a f else v f)]
    apply List.map_congr_left
    intro f _
    by_cases h : v f = "" <;> by_cases h2 : lookupAnswer a f = "" <;>
      simp [firstNonEmptyAnswer, h, h2]

/-- The raw merge is the schema paired with the first non-empty answer of
each field. -/
theorem mergeRaw_repr (answers : List RawAnswer) :
    mergeRaw answers =
      TSV_SCHEMA.map (fun f => (f, firstNonEmptyAnswer answers f)) := by
  have h := foldl_overlayAnswer answers TSV_SCHEMA (fun _ => "")
  unfold mergeRaw emptyRecord
  simpa using h

/-- Reading a field out of a record of the shape `f ↦ v f`. -/
theorem lookupAnswer_map (l : List String) (v : String → String) (f : String)
    (hf : f ∈ l) :
    lookupAnswer (l.map (fun g => (g, v g))) f = v f := by
  induction l with
  | nil => cases hf
  | cons g rest ih =>
    rw [List.map_cons]
    by_cases h : g = f
    · subst h
      unfold lookupAnswer
      rw [List.find?_cons_of_pos _ (by simp)]
      rfl
    · have hf' : f ∈ rest := by
        rcases List.mem_cons.mp hf with h1 | h1
        · exact absurd h1.symm h
        · exact h1
      unfold lookupAnswer
      rw [List.find?_cons_of_neg _ (by simp [h])]
      exact ih hf'

/-- The full merge is the schema paired with `mergedValue`. -/
theorem merge_repr (answers : List RawAnswer) (form url : String)
    (idx : Nat) :
    merge answers form url idx =
      TSV_SCHEMA.map (fun f => (f, mergedValue answers form url idx f)) := by
  unfold merge
  rw [mergeRaw_repr, List.map_map]
  apply List.map_congr_left
  intro f _
  simp [mergedValue]

/-- Reading a schema field out of the raw merge gives the first non-empty
answer. -/
theorem lookup_mergeRaw (answers : List RawAnswer) (f : String)
    (hf : f ∈ TSV_SCHEMA) :
    lookupAnswer (mergeRaw answers) f = firstNonEmptyAnswer answers f := by
  rw [mergeRaw_repr]
  exact lookupAnswer_map _ _ _ hf

/-- Reading a schema field out of the full merge gives `mergedValue`. -/
theorem lookup_merge (answers : List RawAnswer) (form url : String)
    (idx : Nat) (f : String) (hf : f ∈ TSV_SCHEMA) :
    lookupAnswer (merge answers form url idx) f =
      mergedValue answers form url idx f := by
  rw [merge_repr]
  exact lookupAnswer_map _ _ _ hf

/-- Appending further answers never changes a field whose merged value is
already non-empty. -/
theorem firstNonEmptyAnswer_append (xs ys : List RawAnswer) (f : String) :
    firstNonEmptyAnswer (xs ++ ys) f =
      if firstNonEmptyAnswer xs f = "" then firstNonEmptyAnswer ys f
      else firstNonEmptyAnswer xs f := by
  induction xs with
  | nil => simp [firstNonEmptyAnswer]
  | cons a rest ih =>
    by_cases h : lookupAnswer a f = "" <;>
      simp [firstNonEmptyAnswer, h, ih]

/-- After `n` appends from a fresh store, the ledger hands out `n` next. -/
theorem nextIdx_appendN (n : Nat) : nextIdx (appendN initialStore n) = n := by
  induction n with
  | zero => rfl
  | succ m ih =>
    show nextIdx (appendRecord (appendN initialStore m)) = m + 1
    have h : nextIdx (appendRecord (appendN initialStore m)) =
        nextIdx (appendN initialStore m) + 1 := rfl
    rw [h, ih]

/-- After `n` appends from a fresh store, the rows are `0, 1, …, n-1`. -/
theorem rows_appendN (n : Nat) :
    (appendN initialStore n).rows = List.range n := by
  induction n with
  | zero => rfl
  | succ m ih =>
    show (appendRecord (appendN initialStore m)).rows = List.range (m + 1)
    unfold appendRecord
    rw [ih, nextIdx_appendN, List.range_succ]

/-- Replacing one URL's ledger entry does not change what the ledger says
about any other URL. -/
theorem findStatus_setLedger (led : List (String × LStatus)) (u d : String)
    (x : LStatus) :
    findStatus (setLedger led d x) u =
      if u = d then some x else findStatus led u := by
  induction led with
  | nil =>
    by_cases h : u = d
    · simp [setLedger, findStatus, h]
    · have hdu : d ≠ u := fun hc => h hc.symm
      simp [setLedger, findStatus, h, hdu]
  | cons p t ih =>
    by_cases hpd : p.1 = d
    · by_cases h : u = d
      · simp [setLedger, findStatus, hpd, h]
      · have hdu : d ≠ u := fun hc => h hc.symm
        have hpu : p.1 ≠ u := hpd ▸ hdu
        simp [setLedger, findStatus, hpd, h, hdu, hpu]
    · by_cases hpu : p.1 = u
      · have h : u ≠ d := fun hc => hpd (hc ▸ hpu)
        simp [setLedger, findStatus, hpd, hpu, h]
      · simp [setLedger, findStatus, hpd, hpu, ih]

/-- Processing document `d` does not change the ledger entry of any other
URL `u`. -/
theorem findStatus_processOne (ok : String → Bool) (st : BatchState)
    (d u : String) (h : u ≠ d) :
    findStatus (processOne ok st d).ledger u = findStatus st.ledger u := by
  unfold processOne
  by_cases h1 : findStatus st.ledger d = some LStatus.succeeded
  · simp [h1]
  · by_cases h2 : ok d <;>
      simp [h1, h2, findStatus_setLedger, h]

/-- A batch run does not change the ledger entry of a URL outside the
document set. -/
theorem findStatus_runBatch_notMem (ok : String → Bool) (st : BatchState)
    (docs : List String) (u : String) (h : u ∉ docs) :
    findStatus (runBatch ok st docs).ledger u = findStatus st.ledger u := by
  induction docs generalizing st with
  | nil => rfl
  | cons d rest ih =>
    have hud : u ≠ d := fun hc => h (hc ▸ List.mem_cons_self d rest)
    have hur : u ∉ rest := fun hc => h (List.mem_cons_of_mem d hc)
    show findStatus (runBatch ok (processOne ok st d) rest).ledger u = _
    rw [ih (processOne ok st d) hur, findStatus_processOne ok st d u hud]

/-- After a run, every document of the set whose processing succeeds is
recorded as succeeded. -/
theorem findStatus_runBatch_ok (ok : String → Bool) (st : BatchState)
    (docs : List String) (u : String) (hu : u ∈ docs) (hok : ok u = true) :
    findStatus (runBatch ok st docs).ledger u = some LStatus.succeeded := by
  induction docs generalizing st with
  | nil => cases hu
  | cons d rest ih =>
    show findStatus (runBatch ok (processOne ok st d) rest).ledger u = _
    by_cases hur : u ∈ rest
    · exact ih (processOne ok st d) hur
    · have hud : u = d := by
        rcases List.mem_cons.mp hu with h1 | h1
        · exact h1
        · exact absurd h1 hur
      subst hud
      rw [findStatus_runBatch_notMem ok _ rest u hur]
      unfold processOne
      by_cases h1 : findStatus st.ledger u = some LStatus.succeeded
      · simp [h1]
      · simp [h1, hok, findStatus_setLedger]

/-- If every document of the set that would succeed is already recorded as
succeeded, a run appends nothing to the store. -/
theorem runBatch_store_stable (ok : String → Bool) (docs : List String) :
    ∀ st : BatchState,
      (∀ u ∈ docs, ok u = true →
        findStatus st.ledger u = some LStatus.succeeded) →
      (runBatch ok st docs).store = st.store := by
  induction docs with
  | nil => intro st _; rfl
  | cons d rest ih =>
    intro st hst
    show (runBatch ok (processOne ok st d) rest).store = st.store
    by_cases h1 : findStatus st.ledger d = some LStatus.succeeded
    · have hskip : processOne ok st d = st := by simp [processOne, h1]
      rw [hskip]
      exact ih st (fun u hu => hst u (List.mem_cons_of_mem d hu))
    · have hokd : ok d = false := by
        by_cases h2 : ok d
        · exact absurd (hst d (List.mem_cons_self d rest) h2) h1
        · simpa using h2
      have hproc : processOne ok st d =
          { ledger := setLedger st.ledger d LStatus.failed,
            store := st.store } := by
        simp [processOne, h1, hokd]
      rw [hproc]
      refine (ih _ ?_).trans rfl
      intro u hu hok
      have hud : u ≠ d := fun hc => by
        rw [hc] at hok
        rw [hok] at hokd
        cases hokd
      show findStatus (setLedger st.ledger d LStatus.failed) u = _
      rw [findStatus_setLedger, if_neg hud]
      exact hst u (List.mem_cons_of_mem d hu) hok

end Pipeline

open Pipeline

/-- C1 (counterexample): the union of the FieldGroups' field sets does not
equal the 68-column taxonomy: `idx` is a taxonomy column claimed by no
group. -/
theorem C1_counterexample :
    "idx" ∈ TSV_SCHEMA ∧ "idx" ∉ allGroupFields := by
  decide

/-- C1 (amended): the union of all FieldGroups' field sets equals the
68-column taxonomy minus the four bookkeeping/metadata columns `idx`,
`form`, `exhibit`, `url`; each of the remaining 64 fields belongs to
exactly one group, except `fee_amount`, which also appears in the
`exhibit` fallback group (count 2). -/
theorem C1_partition :
    (∀ f ∈ TSV_SCHEMA, f ∉ BOOKKEEPING_FIELDS →
      allGroupFields.count f = if f = "fee_amount" then 2 else 1)
    ∧ (∀ f ∈ allGroupFields, f ∈ TSV_SCHEMA ∧ f ∉ BOOKKEEPING_FIELDS) := by
  decide

/-- C1 (witness): instantiating the partition theorem at `buyer` and at
`fee_amount`. -/
theorem C1_partition_witness :
    allGroupFields.count "buyer" = 1 ∧ allGroupFields.count "fee_amount" = 2
    ∧ "fee_amount" ∈ TSV_SCHEMA := by
  refine ⟨?_, ?_, (C1_partition.2 "fee_amount" (by decide)).1⟩
  · have h := C1_partition.1 "buyer" (by decide) (by decide)
    simpa using h
  · have h := C1_partition.1 "fee_amount" (by decide) (by decide)
    simpa using h

/-- C2: if no section title matches any of the group's keyword patterns,
`route` returns the entire section list (full-text fallback); moreover the
routed list is nonempty whenever the document has at least one section.
Routing is a total function, so it never fails. -/
theorem C2_route_fallback (sections : List Sec) (keywords : List String) :
    ((∀ s ∈ sections, sectionMatches keywords s.title = false) →
      route sections keywords = sections)
    ∧ (sections ≠ [] → route sections keywords ≠ []) := by
  constructor
  · intro h
    have hempty : find_relevant_sections sections keywords = [] := by
      rw [find_relevant_sections_eq_filter]
      refine List.filter_eq_nil_iff.2 ?_
      intro s hs
      simp [h s hs]
    simp [route, hempty]
  · intro hne
    unfold route
    by_cases h : (find_relevant_sections sections keywords).isEmpty
    · simpa [h] using hne
    · simpa [h] using fun hcontra => h (by simp [hcontra])

/-- C2 (witness): a document whose only section is titled "Definitions"
matches no payment keyword, and routing the payment group falls back to
the full section list. -/
theorem C2_route_fallback_witness :
    route [Sec.mk "1" "Definitions" "x"]
        ["payment|fee|price|consideration|purchase"] =
      [Sec.mk "1" "Definitions" "x"]
    ∧ route [Sec.mk "1" "Definitions" "x"]
        ["payment|fee|price|consideration|purchase"] ≠ [] :=
  ⟨(C2_route_fallback _ _).1 (by decide), (C2_route_fallback _ _).2 (by decide)⟩

/-- C3: a section is selected for a group iff its title matches at least
one of the group's keyword patterns (case-insensitive regex search
anywhere in the title, embedded by `sectionMatches`); the selected
sections form a sublist of the document (hence appear in document order),
and when the document's sections are distinct each selected section
appears at most once. -/
theorem C3_selection (sections : List Sec) (keywords : List String) :
    (∀ s, s ∈ find_relevant_sections sections keywords ↔
      s ∈ sections ∧ sectionMatches keywords s.title = true)
    ∧ (find_relevant_sections sections keywords).Sublist sections
    ∧ (sections.Nodup → (find_relevant_sections sections keywords).Nodup) := by
  rw [find_relevant_sections_eq_filter]
  refine ⟨?_, List.filter_sublist _, fun h => h.filter _⟩
  intro s
  simp [List.mem_filter]

/-- C3 (witness): on the spec's example document, the payment group
selects exactly the "Payment Terms" section, once, and the input sections
are distinct. -/
theorem C3_selection_witness :
    find_relevant_sections
        [Sec.mk "0" "Preamble" "p", Sec.mk "2" "Payment Terms" "t"]
        ["payment|fee|price|consideration|purchase"] =
      [Sec.mk "2" "Payment Terms" "t"]
    ∧ (find_relevant_sections
        [Sec.mk "0" "Preamble" "p", Sec.mk "2" "Payment Terms" "t"]
        ["payment|fee|price|consideration|purchase"]).Nodup := by
  refine ⟨by decide, (C3_selection _ _).2.2 (by decide)⟩

/-- C4: the record starts with every canonical field empty
(`emptyRecord`); after overlaying the group answers in declaration order,
every schema field's value is the first non-empty answer in declaration
order; a later group's answers (here: any `more` appended after
`answers`) never change a field whose value is already non-empty; and in
the full merge every non-bookkeeping field is the normalization of that
first non-empty answer. -/
theorem C4_merge_precedence (answers more : List RawAnswer)
    (form url : String) (idx : Nat) (f : String) (hf : f ∈ TSV_SCHEMA) :
    lookupAnswer emptyRecord f = ""
    ∧ lookupAnswer (mergeRaw answers) f = firstNonEmptyAnswer answers f
    ∧ (firstNonEmptyAnswer answers f ≠ "" →
        lookupAnswer (mergeRaw (answers ++ more)) f =
          firstNonEmptyAnswer answers f)
    ∧ (f ∉ (["idx", "url", "form"] : List String) →
        lookupAnswer (merge answers form url idx) f =
          normalizeField f (firstNonEmptyAnswer answers f)) := by
  refine ⟨?_, lookup_mergeRaw answers f hf, ?_, ?_⟩
  · unfold emptyRecord
    exact lookupAnswer_map _ _ _ hf
  · intro hne
    rw [lookup_mergeRaw _ _ hf, firstNonEmptyAnswer_append, if_neg hne]
  · intro hnb
    rw [lookup_merge _ _ _ _ _ hf]
    unfold mergedValue
    simp only [List.mem_cons, List.mem_singleton] at hnb
    push_neg at hnb
    rw [if_neg hnb.1, if_neg hnb.2.1, if_neg hnb.2.2.1]

/-- C4 (witness): the payment group is declared before the exhibit group,
so a non-empty `fee_amount` from the payment answer wins over the exhibit
answer, and a later answer cannot overwrite it. -/
theorem C4_merge_precedence_witness :
    lookupAnswer (mergeRaw [[("fee_amount", "$3,500")],
        [("fee_amount", "$9,999")]]) "fee_amount" =
      firstNonEmptyAnswer [[("fee_amount", "$3,500")],
        [("fee_amount", "$9,999")]] "fee_amount"
    ∧ firstNonEmptyAnswer [[("fee_amount", "$3,500")],
        [("fee_amount", "$9,999")]] "fee_amount" = "$3,500"
    ∧ lookupAnswer (mergeRaw ([[("fee_amount", "$3,500")]] ++
        [[("fee_amount", "$9,999")]])) "fee_amount" =
      firstNonEmptyAnswer [[("fee_amount", "$3,500")]] "fee_amount" := by
  refine ⟨(C4_merge_precedence _ [] "" "" 0 _ (by decide)).2.1, by decide, ?_⟩
  exact (C4_merge_precedence [[("fee_amount", "$3,500")]]
    [[("fee_amount", "$9,999")]] "" "" 0 "fee_amount"
    (by decide)).2.2.1 (by decide)

/-- C5: every merged record carries exactly the canonical schema columns —
68 of them, `idx` and `url` among them — in order, each field present
(possibly empty); every boolean field holds only `yes`, `no`, or the
empty string; and every duration field matches `\d+(d|mo|y)` or is
empty. -/
theorem C5_record_invariant (answers : List RawAnswer) (form url : String)
    (idx : Nat) :
    (merge answers form url idx).map Prod.fst = TSV_SCHEMA
    ∧ TSV_SCHEMA.length = 68
    ∧ "idx" ∈ TSV_SCHEMA ∧ "url" ∈ TSV_SCHEMA
    ∧ (∀ f ∈ BOOLEAN_FIELDS,
        lookupAnswer (merge answers form url idx) f ∈
          (["yes", "no", ""] : List String))
    ∧ (∀ f ∈ DURATION_FIELDS,
        isDurationStr (lookupAnswer (merge answers form url idx) f) = true
        ∨ lookupAnswer (merge answers form url idx) f = "") := by
  refine ⟨?_, by decide, by decide, by decide, ?_, ?_⟩
  · rw [merge_repr, List.map_map]
    exact List.map_id _
  · intro f hfb
    have hall : ∀ g ∈ BOOLEAN_FIELDS,
        g ∈ TSV_SCHEMA ∧ g ≠ "idx" ∧ g ≠ "url" ∧ g ≠ "form" := by decide
    have hf := hall f hfb
    rw [lookup_merge _ _ _ _ _ hf.1]
    unfold mergedValue
    rw [if_neg hf.2.1, if_neg hf.2.2.1, if_neg hf.2.2.2]
    unfold normalizeField
    rw [if_pos hfb]
    unfold normalizeBool
    by_cases h1 :
        String.mk (lowerStr (firstNonEmptyAnswer answers f)) ∈
          AFFIRMATIVE_SYNONYMS
    · simp [h1]
    · by_cases h2 :
          String.mk (lowerStr (firstNonEmptyAnswer answers f)) ∈
            NEGATIVE_SYNONYMS
      · simp [h1, h2]
      · simp [h1, h2]
  · intro f hfd
    have hall : ∀ g ∈ DURATION_FIELDS,
        g ∈ TSV_SCHEMA ∧ g ≠ "idx" ∧ g ≠ "url" ∧ g ≠ "form"
          ∧ g ∉ BOOLEAN_FIELDS := by decide
    have hf := hall f hfd
    rw [lookup_merge _ _ _ _ _ hf.1]
    unfold mergedValue
    rw [if_neg hf.2.1, if_neg hf.2.2.1, if_neg hf.2.2.2.1]
    unfold normalizeField
    rw [if_neg hf.2.2.2.2, if_pos hfd]
    unfold normalizeDuration
    by_cases h : isDurationStr (firstNonEmptyAnswer answers f)
    · left
      rw [if_pos h]
      exact h
    · right
      rw [if_neg h]

/-- C5 (witness): the invariant at a concrete record — a boolean field
normalized from `"Yes"` and a duration field normalized from `"24mo"`. -/
theorem C5_record_invariant_witness :
    lookupAnswer (merge [[("exclusive", "Yes"), ("term", "24mo")]]
        "8-K" "https://sec.gov/x" 7) "exclusive" ∈
      (["yes", "no", ""] : List String)
    ∧ (isDurationStr (lookupAnswer
          (merge [[("exclusive", "Yes"), ("term", "24mo")]]
            "8-K" "https://sec.gov/x" 7) "term") = true
        ∨ lookupAnswer (merge [[("exclusive", "Yes"), ("term", "24mo")]]
            "8-K" "https://sec.gov/x" 7) "term" = "") := by
  refine ⟨?_, ?_⟩
  · exact (C5_record_invariant [[("exclusive", "Yes"), ("term", "24mo")]]
      "8-K" "https://sec.gov/x" 7).2.2.2.2.1 "exclusive" (by decide)
  · exact (C5_record_invariant [[("exclusive", "Yes"), ("term", "24mo")]]
      "8-K" "https://sec.gov/x" 7).2.2.2.2.2 "term" (by decide)

/-- C6 (counterexample): `date` is one of the fields the pipeline requests
from the text service (it is in the `preamble|recitals` group of
`SECTION_FIELD_MAPPING`), and in a concrete merge the record's `date`
comes from that group's `RawAnswer` — not from the metadata `form`
argument or the caller URL, the only metadata inputs the merge has. -/
theorem C6_counterexample :
    "date" ∈ allGroupFields
    ∧ lookupAnswer (merge [[("date", "2024-01-15")]] "8-K"
        "https://sec.gov/x" 7) "date" = "2024-01-15"
    ∧ lookupAnswer [("date", "2024-01-15")] "date" = "2024-01-15" := by
  decide

/-- C6 (amended): `form` and `url` are taken from the SEC filing metadata
and the caller-supplied URL, never from a text-service answer; `date`,
however, is requested from the text service via the `preamble|recitals`
group, and its merged value is the (normalization-neutral) first non-empty
text-service answer. -/
theorem C6_metadata_fields (answers : List RawAnswer) (form url : String)
    (idx : Nat) :
    lookupAnswer (merge answers form url idx) "form" = form
    ∧ lookupAnswer (merge answers form url idx) "url" = url
    ∧ lookupAnswer (merge answers form url idx) "idx" = toString idx
    ∧ lookupAnswer (merge answers form url idx) "date" =
        firstNonEmptyAnswer answers "date" := by
  refine ⟨?_, ?_, ?_, ?_⟩
  · rw [lookup_merge _ _ _ _ _ (by decide)]
    unfold mergedValue
    rw [if_neg (by decide), if_neg (by decide), if_pos rfl]
  · rw [lookup_merge _ _ _ _ _ (by decide)]
    unfold mergedValue
    rw [if_neg (by decide), if_pos rfl]
  · rw [lookup_merge _ _ _ _ _ (by decide)]
    unfold mergedValue
    rw [if_pos rfl]
  · rw [lookup_merge _ _ _ _ _ (by decide)]
    unfold mergedValue
    rw [if_neg (by decide), if_neg (by decide), if_neg (by decide)]
    unfold normalizeField
    rw [if_neg (by decide), if_neg (by decide), if_neg (by decide)]

/-- C7: boolean normalization is a total function whose range is
`{yes, no, ""}`; every affirmative synonym maps to `yes`, every negative
synonym maps to `no`, and anything else — in particular the raw answer
`"N/A"` — degrades to the empty string. -/
theorem C7_normalizeBool_total (v : String) :
    (normalizeBool v = "yes" ∨ normalizeBool v = "no" ∨ normalizeBool v = "")
    ∧ (String.mk (lowerStr v) ∈ AFFIRMATIVE_SYNONYMS →
        normalizeBool v = "yes")
    ∧ (String.mk (lowerStr v) ∈ NEGATIVE_SYNONYMS → normalizeBool v = "no")
    ∧ normalizeBool "N/A" = "" := by
  refine ⟨?_, ?_, ?_, by decide⟩
  · unfold normalizeBool
    by_cases h1 : String.mk (lowerStr v) ∈ AFFIRMATIVE_SYNONYMS
    · simp [h1]
    · by_cases h2 : String.mk (lowerStr v) ∈ NEGATIVE_SYNONYMS
      · simp [h1, h2]
      · simp [h1, h2]
  · intro h
    unfold normalizeBool
    simp [h]
  · intro h
    have hall : ∀ s ∈ NEGATIVE_SYNONYMS, s ∉ AFFIRMATIVE_SYNONYMS := by
      decide
    have hdisj := hall _ h
    unfold normalizeBool
    simp [h, hdisj]

/-- C7 (witness): mixed-case synonyms normalize to the controlled
vocabulary. -/
theorem C7_normalizeBool_total_witness :
    normalizeBool "YES" = "yes" ∧ normalizeBool "nO" = "no" :=
  ⟨(C7_normalizeBool_total "YES").2.1 (by decide),
   (C7_normalizeBool_total "nO").2.2.1 (by decide)⟩

/-- C8: each append assigns an idx exactly one greater than the highest
idx the ledger has recorded (not derived from the store's rows); after
`n` appends from a fresh store the rows are exactly `0, …, n-1` — `n`
rows, strictly increasing, no duplicates; on any healthy state the next
idx is never one already stored, appending preserves health, and a
restart that loses trailing store rows (the ledger being durable)
preserves health, so an idx is never reused. -/
theorem C8_idx_assignment (n : Nat) (s : StoreState) (hs : StoreInv s)
    (k : Nat) :
    (appendN initialStore n).rows = List.range n
    ∧ (appendN initialStore n).rows.length = n
    ∧ (appendN initialStore n).rows.Pairwise (· < ·)
    ∧ (appendN initialStore n).rows.Nodup
    ∧ nextIdx s ∉ s.rows
    ∧ (appendRecord s).rows = s.rows ++ [nextIdx s]
    ∧ StoreInv (appendRecord s)
    ∧ StoreInv (restartStore s k)
    ∧ (∀ m, s.ledgerLast = some m → nextIdx s = m + 1) := by
  have hnext : ∀ i ∈ s.rows, i < nextIdx s := hs.2
  refine ⟨rows_appendN n, by rw [rows_appendN]; exact List.length_range n,
    ?_, by rw [rows_appendN]; exact List.nodup_range n,
    fun hmem => absurd (hnext _ hmem) (lt_irrefl _), rfl, ?_, ?_, ?_⟩
  · rw [rows_appendN]
    exact List.pairwise_lt_range n
  · constructor
    · show (s.rows ++ [nextIdx s]).Pairwise (· < ·)
      rw [List.pairwise_append]
      refine ⟨hs.1, List.pairwise_singleton _ _, ?_⟩
      intro a ha b hb
      rw [List.mem_singleton] at hb
      exact hb ▸ hnext a ha
    · intro i hi
      have hstep : nextIdx (appendRecord s) = nextIdx s + 1 := rfl
      rw [hstep]
      rcases List.mem_append.mp hi with h1 | h1
      · exact Nat.lt_succ_of_lt (hnext i h1)
      · rw [List.mem_singleton] at h1
        exact h1 ▸ Nat.lt_succ_self _
  · constructor
    · exact List.Pairwise.sublist (List.take_sublist k s.rows) hs.1
    · intro i hi
      exact hnext i (List.take_subset k s.rows hi)
  · intro m hm
    unfold nextIdx
    rw [hm]

/-- C8 (witness): three appends from a fresh store give rows `[0, 1, 2]`;
on a store whose file lost rows (one row `0`) while the ledger records a
highest idx of `5`, the next idx `6` is not a stored row and appending
keeps the store healthy — no idx is reused. -/
theorem C8_idx_assignment_witness :
    (appendN initialStore 3).rows = List.range 3
    ∧ nextIdx (StoreState.mk [0] (some 5)) ∉ (StoreState.mk [0] (some 5)).rows
    ∧ StoreInv (appendRecord (StoreState.mk [0] (some 5)))
    ∧ nextIdx (StoreState.mk [0] (some 5)) = 6 := by
  have hinv : StoreInv (StoreState.mk [0] (some 5)) := by
    constructor
    · exact List.pairwise_singleton _ _
    · intro i hi
      rw [List.mem_singleton] at hi
      subst hi
      show 0 < 6
      decide
  exact ⟨(C8_idx_assignment 3 _ hinv 1).1,
    (C8_idx_assignment 3 _ hinv 1).2.2.2.2.1,
    (C8_idx_assignment 3 _ hinv 1).2.2.2.2.2.2.1, rfl⟩

/-- C9: batch resume is idempotent — running the batch a second time from
the state the first run left (no store/ledger reset) changes nothing in
the store: succeeded URLs are skipped unconditionally and reprocessing a
failed URL appends no row, so the final row count equals a single run's. -/
theorem C9_resume_idempotent (ok : String → Bool) (s0 : BatchState)
    (docs : List String) :
    (runBatch ok (runBatch ok s0 docs) docs).store =
      (runBatch ok s0 docs).store := by
  apply runBatch_store_stable
  intro u hu hok
  exact findStatus_runBatch_ok ok s0 docs u hu hok

/-- C10: for every request whose method is not POST, the `/api/process`
handler responds 405 with the JSON body `\x7b"detail":"Method not
allowed"\x7d`, without reading the request body and without issuing any
backend request — for every possible backend. -/
theorem C10_method_not_allowed (req : ApiRequest)
    (backend : String → String → BackendResponse)
    (h : req.method ≠ "POST") :
    handler req backend =
      ApiResult.mk 405 "application/json" methodNotAllowedBody false false
    ∧ (handler req backend).backendCalled = false
    ∧ (handler req backend).bodyRead = false := by
  have heq : handler req backend =
      ApiResult.mk 405 "application/json" methodNotAllowedBody false false := by
    unfold handler
    rw [if_pos h]
  exact ⟨heq, by rw [heq], by rw [heq]⟩

/-- C10 (witness): a GET request is rejected with 405 regardless of the
backend. -/
theorem C10_method_not_allowed_witness :
    handler (ApiRequest.mk "GET" none "ignored")
        (fun _ _ => BackendResponse.mk true 200 none none "" "") =
      ApiResult.mk 405 "application/json" methodNotAllowedBody false false :=
  (C10_method_not_allowed (ApiRequest.mk "GET" none "ignored")
    (fun _ _ => BackendResponse.mk true 200 none none "" "")
    (by decide)).1
